import Mathlib

/-!
Verification development for the dynamic-file-searcher crawl pipeline.

Go strings are modelled as `List Char`; the Go standard-library string
operations used by the sources are given executable models below, and the
program functions (`StreamDomainParts`, `ProcessResult`, `isNewResponse`,
`streamURLsForDomain`, the worker/producer pipeline) are translated on top
of them.  Only the final iteration of each source file is embedded.
-/

namespace DFS

/-- Go strings, modelled as lists of characters. -/
abbrev Str := List Char

/-- Conversion helper for writing `Str` literals. -/
def ch (s : String) : Str := s.toList

/-- Model of `strings.HasPrefix s pre`. -/
def strHasPre (s pre : Str) : Bool := pre.isPrefixOf s

/-- Model of `strings.HasSuffix s suf`. -/
def strHasSuf (s suf : Str) : Bool := suf.isSuffixOf s

/-- Model of `strings.TrimPrefix s pre`. -/
def strTrimPre (s pre : Str) : Str :=
  if strHasPre s pre then s.drop pre.length else s

/-- Model of `strings.TrimSuffix s suf`. -/
def strTrimSuf (s suf : Str) : Str :=
  if strHasSuf s suf then s.take (s.length - suf.length) else s

/-- Model of `strings.Contains s sub` (substring search). -/
def strContains (s sub : Str) : Bool :=
  if sub.isPrefixOf s then true else
    match s with
    | [] => false
    | _ :: t => strContains t sub

/-- Splitting on every character satisfying `p` (empty pieces kept). -/
def splitPred (p : Char → Bool) : Str → List Str
  | [] => [[]]
  | c :: rest =>
    if p c then [] :: splitPred p rest
    else
      match splitPred p rest with
      | [] => [[c]]
      | piece :: more => (c :: piece) :: more

/-- Model of `strings.Split s sep` for a single-character separator: all
substrings between occurrences of `sep` (never the empty list of pieces). -/
def strSplitCh (sep : Char) (s : Str) : List Str :=
  splitPred (fun c => c = sep) s

/-- Model of `strings.FieldsFunc s p`: pieces between separator characters,
empty pieces dropped. -/
def strFieldsFunc (p : Char → Bool) (s : Str) : List Str :=
  (splitPred p s).filter (fun f => !f.isEmpty)

/-- ASCII lower-casing of one character (the inputs the program feeds to
`strings.ToLower` are hostnames, headers and flag values; the non-ASCII
cases of Go's Unicode mapping do not arise in the embedded claims). -/
def lowerChar (c : Char) : Char :=
  if 'A' ≤ c ∧ c ≤ 'Z' then Char.ofNat (c.toNat + 32) else c

/-- Model of `strings.ToLower`. -/
def strToLower (s : Str) : Str := s.map lowerChar

/-- Model of `strings.ReplaceAll s pat repl` for a non-empty pattern:
left-to-right, non-overlapping replacement.  The `fuel` argument (one unit
per examined position, always sufficient at `s.length`) makes the
recursion structural so that the kernel can evaluate it. -/
def strReplaceAllAux (pat repl : Str) : Nat → Str → Str
  | 0, s => s
  | _, [] => []
  | fuel + 1, c :: t =>
    if pat.isPrefixOf (c :: t) then
      repl ++ strReplaceAllAux pat repl fuel (t.drop (pat.length - 1))
    else
      c :: strReplaceAllAux pat repl fuel t

/-- Model of `strings.ReplaceAll s pat repl` for a non-empty pattern. -/
def strReplaceAll (pat repl s : Str) : Str :=
  strReplaceAllAux pat repl s.length s

/-- Model of `strings.Join pieces sep` (`strings.Join` / `List.intercalate`). -/
def strJoin (sep : Str) (l : List Str) : Str := List.intercalate sep l

/-- ASCII decimal digit test. -/
def isDigitCh (c : Char) : Bool := '0' ≤ c ∧ c ≤ '9'

/-- ASCII hexadecimal digit test (`[a-fA-F0-9]`). -/
def isHexCh (c : Char) : Bool :=
  ('0' ≤ c ∧ c ≤ '9') ∨ ('a' ≤ c ∧ c ≤ 'f') ∨ ('A' ≤ c ∧ c ≤ 'F')

/-- ASCII lowercase-letter test (`[a-z]`). -/
def isLowerAlphaCh (c : Char) : Bool := 'a' ≤ c ∧ c ≤ 'z'

/-- ASCII whitespace test, the cases of `strings.TrimSpace` that arise for
flag values (space, tab, newline, carriage return, vertical tab, form feed). -/
def isSpaceCh (c : Char) : Bool :=
  c = ' ' ∨ c = '\t' ∨ c = '\n' ∨ c = '\r' ∨ c = '\x0b' ∨ c = '\x0c'

/-- Model of `strings.TrimSpace`. -/
def strTrimSpace (s : Str) : Str :=
  ((s.dropWhile isSpaceCh).reverse.dropWhile isSpaceCh).reverse

/-- Numeric value of a list of decimal digits. -/
def digitsVal (s : Str) : Nat :=
  s.foldl (fun acc c => acc * 10 + (c.toNat - '0'.toNat)) 0

/-- Model of `strconv.Atoi`: optional sign, one or more decimal digits,
value within the 64-bit signed range; `none` models a non-nil error. -/
def atoiParse (s : Str) : Option Int :=
  let core : Str → Bool → Option Int := fun ds neg =>
    if ds = [] ∨ ¬ ds.all isDigitCh then none
    else
      let v := digitsVal ds
      if neg then
        if v ≤ 2 ^ 63 then some (-(v : Int)) else none
      else
        if v ≤ 2 ^ 63 - 1 then some (v : Int) else none
  match s with
  | '+' :: ds => core ds false
  | '-' :: ds => core ds true
  | ds => core ds false

/-- Whether `strconv.Atoi` succeeds (`err == nil`). -/
def atoiOk (s : Str) : Bool := (atoiParse s).isSome

/-- Decimal digits accumulator (`fuel`-structural so the kernel can
evaluate it; `fuel = n + 1` always suffices). -/
def natDecAux : Nat → Nat → Str → Str
  | 0, _, acc => acc
  | fuel + 1, n, acc =>
    if n < 10 then Char.ofNat (n + 48) :: acc
    else natDecAux fuel (n / 10) (Char.ofNat (n % 10 + 48) :: acc)

/-- Model of `strconv.FormatInt n 10` on `Nat` input. -/
def natDec (n : Nat) : Str := natDecAux (n + 1) n []

/-- Model of `strconv.FormatInt i 10`. -/
def intDec (i : Int) : Str :=
  if i < 0 then '-' :: natDec (-i).toNat else natDec i.toNat

/-! ### The compiled patterns of pkg/domain (final iteration)

Each `regexp` of the source is a fixed pattern; its matching or replacing
behaviour (RE2 leftmost, first-alternative, greedy semantics) is modelled
directly as a function on `Str`. -/

/-- Model of `ipv4Regex.MatchString`: full match of
`(\d{1,3}\.){3}\d{1,3}` — four dot-separated groups of 1–3 digits. -/
def ipv4Match (s : Str) : Bool :=
  let pieces := strSplitCh '.' s
  pieces.length = 4 ∧
    pieces.all (fun p => 1 ≤ p.length ∧ p.length ≤ 3 ∧ p.all isDigitCh)

/-- Model of `ipv6Regex.MatchString`: full match of
`([0-9a-fA-F]{1,4}:){7}[0-9a-fA-F]{1,4}` — eight colon-separated groups of
1–4 hex digits. -/
def ipv6Match (s : Str) : Bool :=
  let pieces := strSplitCh ':' s
  pieces.length = 8 ∧
    pieces.all (fun p => 1 ≤ p.length ∧ p.length ≤ 4 ∧ p.all isHexCh)

/-- Model of `md5Regex.ReplaceAllString host ""`: the pattern
`^[a-fA-F0-9]{32}$` is anchored on both sides, so the replacement erases the
whole string exactly when it is 32 hex characters, and otherwise changes
nothing. -/
def md5Replace (s : Str) : Str :=
  if s.length = 32 ∧ s.all isHexCh then [] else s

/-- Separator class `[-\.]` of `ipPartRegex`. -/
def isIpSepCh (c : Char) : Bool := c = '-' ∨ c = '.'

/-- Length of the match of `ipPartRegex`
(`\d{1,3}[-\.]\d{1,3}[-\.]\d{1,3}[-\.]\d{1,3}`) starting at the front of
`s`, if any.  Each of the first three `\d{1,3}` groups is followed by a
separator, so (after greedy backtracking) it can only consume a complete
digit run of length 1–3; the final group greedily consumes up to three
digits of a non-empty run. -/
def matchIpPartLen (s : Str) : Option Nat :=
  let r1 := (s.takeWhile isDigitCh).length
  if 1 ≤ r1 ∧ r1 ≤ 3 then
    match s.drop r1 with
    | c1 :: s1 =>
      if isIpSepCh c1 then
        let r2 := (s1.takeWhile isDigitCh).length
        if 1 ≤ r2 ∧ r2 ≤ 3 then
          match s1.drop r2 with
          | c2 :: s2 =>
            if isIpSepCh c2 then
              let r3 := (s2.takeWhile isDigitCh).length
              if 1 ≤ r3 ∧ r3 ≤ 3 then
                match s2.drop r3 with
                | c3 :: s3 =>
                  if isIpSepCh c3 then
                    let r4 := (s3.takeWhile isDigitCh).length
                    if 1 ≤ r4 then
                      some (r1 + 1 + r2 + 1 + r3 + 1 + min r4 3)
                    else none
                  else none
                | [] => none
              else none
            else none
          | [] => none
        else none
      else none
    | [] => none
  else none

/-- Model of `ipPartRegex.ReplaceAllString host ""`: scan left to right,
erasing each leftmost non-overlapping match (`fuel`-structural; one unit
per position, `s.length` always suffices). -/
def ipPartReplaceAux : Nat → Str → Str
  | 0, s => s
  | _, [] => []
  | fuel + 1, c :: t =>
    match matchIpPartLen (c :: t) with
    | some n => ipPartReplaceAux fuel (t.drop (n - 1))
    | none => c :: ipPartReplaceAux fuel t

/-- Model of `ipPartRegex.ReplaceAllString host ""`. -/
def ipPartReplace (s : Str) : Str := ipPartReplaceAux s.length s

/-- The alternatives of `envRegex`
(`(prod|qa|dev|testing|test|uat|stg|stage|staging|developement|production)$`),
in source order. -/
def envAlternatives : List Str :=
  [ch "prod", ch "qa", ch "dev", ch "testing", ch "test", ch "uat",
   ch "stg", ch "stage", ch "staging", ch "developement", ch "production"]

/-- Model of `envRegex.FindString`: the pattern is end-anchored and no
alternative is a suffix of another, so the leftmost match is the unique
alternative that ends the string. -/
def envFind? (s : Str) : Option Str :=
  envAlternatives.find? (fun alt => strHasSuf s alt)

/-- Model of `envRegex.MatchString`. -/
def envMatches (s : Str) : Bool := (envFind? s).isSome

/-- Model of `suffixNumberRegex.FindString` (`[\d]+$`): the maximal run of
trailing decimal digits (empty when the string does not end in a digit). -/
def trailingDigits (s : Str) : Str :=
  (s.reverse.takeWhile isDigitCh).reverse

/-- Model of `onlyAlphaRegex.MatchString` (`^[a-z]+$`). -/
def onlyAlpha (s : Str) : Bool := !s.isEmpty && s.all isLowerAlphaCh

/-- The alternatives of `regionPartRegex`, in source order. -/
def regionAlternatives : List Str :=
  [ch "us-east", ch "us-west", ch "af-south", ch "ap-east", ch "ap-south",
   ch "ap-northeast", ch "ap-southeast", ch "ca-central", ch "eu-west",
   ch "eu-north", ch "eu-south", ch "me-south", ch "sa-east",
   ch "us-east-1", ch "us-east-2", ch "us-west-1", ch "us-west-2",
   ch "af-south-1", ch "ap-east-1", ch "ap-south-1", ch "ap-northeast-3",
   ch "ap-northeast-2", ch "ap-southeast-1", ch "ap-southeast-2",
   ch "ap-southeast-3", ch "ap-northeast-1", ch "ca-central-1",
   ch "eu-central-1", ch "eu-west-1", ch "eu-west-2", ch "eu-west-3",
   ch "eu-north-1", ch "eu-south-1", ch "me-south-1", ch "sa-east-1",
   ch "useast1", ch "useast2", ch "uswest1", ch "uswest2", ch "afsouth1",
   ch "apeast1", ch "apsouth1", ch "apnortheast3", ch "apnortheast2",
   ch "apsoutheast1", ch "apsoutheast2", ch "apsoutheast3",
   ch "apnortheast1", ch "cacentral1", ch "eucentral1", ch "euwest1",
   ch "euwest2", ch "euwest3", ch "eunorth1", ch "eusouth1", ch "mesouth1",
   ch "saeast1"]

/-- Model of `regionPartRegex.ReplaceAllString host ""`: Go's regexp uses
leftmost-first alternation, so at each position the first alternative (in
written order) that matches is erased (`fuel`-structural; one unit per
position, `s.length` always suffices). -/
def regionReplaceAux : Nat → Str → Str
  | 0, s => s
  | _, [] => []
  | fuel + 1, c :: t =>
    match regionAlternatives.find? (fun alt => alt.isPrefixOf (c :: t)) with
    | some alt => regionReplaceAux fuel (t.drop (alt.length - 1))
    | none => c :: regionReplaceAux fuel t

/-- Model of `regionPartRegex.ReplaceAllString host ""`. -/
def regionReplace (s : Str) : Str := regionReplaceAux s.length s

/-- The bypass strings of pkg/domain (`byPassCharacters`). -/
def byPassCharacters : List Str := [ch ";", ch "..;"]

/-- The static TLD table `commonTLDs` of pkg/domain, in source order (the
lookup map `commonTLDsMap` contains exactly these entries). -/
def commonTLDs : List Str :=
  ([ "co.uk", "co.jp", "co.nz", "co.za", "com.au", "com.br", "com.cn",
     "com.mx", "com.tr", "com.tw", "edu.au", "edu.cn", "edu.hk", "edu.sg",
     "gov.uk", "net.au", "net.cn", "org.au", "org.uk", "ac.uk", "ac.nz",
     "ac.jp", "ac.kr", "ne.jp", "or.jp", "org.nz", "govt.nz", "sch.uk",
     "nhs.uk",
     "com", "org", "net", "edu", "gov", "int", "mil", "aero", "biz", "cat",
     "coop", "info", "jobs", "mobi", "museum", "name", "pro", "tel",
     "travel", "xxx", "asia", "arpa",
     "app", "dev", "io", "ai", "cloud", "digital", "online", "store",
     "tech", "site", "website", "blog", "shop", "agency", "expert",
     "software", "studio", "design", "education", "healthcare",
     "ac", "ad", "ae", "af", "ag", "ai", "al", "am", "an", "ao", "aq",
     "ar", "as", "at", "au", "aw", "ax", "az", "ba", "bb", "bd", "be",
     "bf", "bg", "bh", "bi", "bj", "bm", "bn", "bo", "br", "bs", "bt",
     "bv", "bw", "by", "bz", "ca", "cc", "cd", "cf", "cg", "ch", "ci",
     "ck", "cl", "cm", "cn", "co", "cr", "cu", "cv", "cx", "cy", "cz",
     "de", "dj", "dk", "dm", "do", "dz", "ec", "ee", "eg", "er", "es",
     "et", "eu", "fi", "fj", "fk", "fm", "fo", "fr", "ga", "gb", "gd",
     "ge", "gf", "gg", "gh", "gi", "gl", "gm", "gn", "gp", "gq", "gr",
     "gs", "gt", "gu", "gw", "gy", "hk", "hm", "hn", "hr", "ht", "hu",
     "id", "ie", "il", "im", "in", "io", "iq", "ir", "is", "it", "je",
     "jm", "jo", "jp", "ke", "kg", "kh", "ki", "km", "kn", "kp", "kr",
     "kw", "ky", "kz", "la", "lb", "lc", "li", "lk", "lr", "ls", "lt",
     "lu", "lv", "ly", "ma", "mc", "md", "me", "mg", "mh", "mk", "ml",
     "mm", "mn", "mo", "mp", "mq", "mr", "ms", "mt", "mu", "mv", "mw",
     "mx", "my", "mz", "na", "nc", "ne", "nf", "ng", "ni", "nl", "no",
     "np", "nr", "nu", "nz", "om", "pa", "pe", "pf", "pg", "ph", "pk",
     "pl", "pm", "pn", "pr", "ps", "pt", "pw", "py", "qa", "re", "ro",
     "rs", "ru", "rw", "sa", "sb", "sc", "sd", "se", "sg", "sh", "si",
     "sj", "sk", "sl", "sm", "sn", "so", "sr", "st", "su", "sv", "sy",
     "sz", "tc", "td", "tf", "tg", "th", "tj", "tk", "tl", "tm", "tn",
     "to", "tp", "tr", "tt", "tv", "tw", "tz", "ua", "ug", "uk", "us",
     "uy", "uz", "va", "vc", "ve", "vg", "vi", "vn", "vu", "wf", "ws",
     "ye", "yt", "za", "zm", "zw" ] : List String).map ch

/-- Model of `removeTLD`: lower-case the host, then find the first split
position whose dot-joined tail is in the TLD table and return the dot-joined
head; if no tail matches, return the lowered host unchanged. -/
def removeTLD (host : Str) : Str :=
  match (List.range (strSplitCh '.' (strToLower host)).length).find?
      (fun i => decide (strJoin (ch ".")
        ((strSplitCh '.' (strToLower host)).drop i) ∈ commonTLDs)) with
  | some i => strJoin (ch ".") ((strSplitCh '.' (strToLower host)).take i)
  | none => strToLower host

/-! ### The configuration struct

The final sources read the fields below from `config.Config` (the last
iteration of `pkg/config` is not among the source files; the field list is
reconstructed from the uses in the final `main.go`, `pkg/domain` and
`pkg/result`, plus the test-only `MaxGeneratedWordsPerHost`). -/

/-- Model of the final `config.Config`, restricted to the fields the
embedded code reads. -/
structure Config where
  Verbose : Bool := false
  HostDepth : Int := 0
  NoEnvAppending : Bool := false
  EnvRemoving : Bool := false
  AppendByPassesToWords : Bool := false
  AppendEnvList : List Str := []
  ForceHTTPProt : Bool := false
  SkipRootFolderCheck : Bool := false
  BasePaths : List Str := []
  DontGeneratePaths : Bool := false
  IgnoreBasePathSlash : Bool := false
  HTTPStatusCodes : Str := []
  MinContentSize : Int := 0
  ContentTypes : Str := []
  DisallowedContentTypes : Str := []
  DisallowedContentStrings : Str := []
  DisableDuplicateCheck : Bool := false
  MaxGeneratedWordsPerHost : Int := 0

/-! ### The word generator (`StreamDomainParts`, final iteration) -/

/-- Model of the `sendUnique` closure: emit (append) a part unless it was
already sent or is empty.  The returned list is both the dedup set and the
emission sequence, since every insertion is an emission. -/
def sendUnique (sent : List Str) (part : Str) : List Str :=
  if part ∉ sent ∧ part ≠ [] then sent ++ [part] else sent

/-- The `-`/`_` sub-label emissions of one label: each sub-label of length
greater than 1 is sent. -/
def processPartSubs (sent : List Str) (part : Str) : List Str :=
  (strFieldsFunc (fun c => c = '-' || c = '_') part).foldl
    (fun acc sp => if 1 < sp.length then sendUnique acc sp else acc) sent

/-- The env-suffix-stripped emission of one label (when `envRegex`
matches, the matched suffix is trimmed and the result sent). -/
def processPartEnv (sent : List Str) (part : Str) : List Str :=
  match envFind? part with
  | some e => sendUnique sent (strTrimSuf part e)
  | none => sent

/-- The digit-suffix-stripped emission of one label. -/
def processPartNum (sent : List Str) (part : Str) : List Str :=
  if trailingDigits part ≠ [] then
    sendUnique sent (strTrimSuf part (trailingDigits part))
  else sent

/-- The 3-character-prefix emission of one label. -/
def processPartPre3 (sent : List Str) (part : Str) : List Str :=
  if 3 ≤ part.length then sendUnique sent (part.take 3) else sent

/-- The 4-character-prefix emission of one label. -/
def processPartPre4 (sent : List Str) (part : Str) : List Str :=
  if 4 ≤ part.length then sendUnique sent (part.take 4) else sent

/-- One iteration of the main per-label loop of `StreamDomainParts`:
skip purely numeric or length-≤1 labels; otherwise emit the label, its
`-`/`_`-separated sub-labels of length >1, its env-suffix-stripped and
digit-suffix-stripped forms, and its 3- and 4-character prefixes, in
source order. -/
def processPart (sent : List Str) (part : Str) : List Str :=
  if atoiOk part then sent
  else if part.length ≤ 1 then sent
  else
    processPartPre4
      (processPartPre3
        (processPartNum
          (processPartEnv
            (processPartSubs (sendUnique sent part) part) part) part) part)
      part

/-- Protocol stripping and path trimming of `StreamDomainParts`: drop an
`http://` or `https://` prefix, keep only the part before the first `/`. -/
def strippedHost (host : Str) : Str :=
  (strSplitCh '/'
    (strTrimPre (strTrimPre host (ch "http://")) (ch "https://"))).headD []

/-- Port stripping, embedded-IP removal and hash removal of
`StreamDomainParts`. -/
def cleanedHost (host : Str) : Str :=
  md5Replace (ipPartReplace ((strSplitCh ':' (strippedHost host)).headD []))

/-- TLD removal, region removal and separator normalization of
`StreamDomainParts`. -/
def normalizedHost (host : Str) : Str :=
  strReplaceAll (ch "__") (ch "_")
    (strReplaceAll (ch "..") (ch ".")
      (strReplaceAll (ch "--") (ch "-")
        (regionReplace (removeTLD (cleanedHost host)))))

/-- Dropping a leading `www` label. -/
def dropWWW (parts : List Str) : List Str :=
  match parts with
  | p :: rest => if p = ch "www" then rest else parts
  | [] => parts

/-- The host-depth limit (`cfg.HostDepth > 0 && len(parts) >= cfg.HostDepth`). -/
def limitDepth (cfg : Config) (parts : List Str) : List Str :=
  if 0 < cfg.HostDepth ∧ cfg.HostDepth ≤ (parts.length : Int) then
    parts.take cfg.HostDepth.toNat
  else parts

/-- The host-preprocessing pipeline of `StreamDomainParts`, up to the list
of dot-labels; `none` models the early return for IPv4/IPv6 literals. -/
def hostParts (host : Str) (cfg : Config) : Option (List Str) :=
  if ipv4Match (strippedHost host) ∨ ipv6Match (strippedHost host) then none
  else
    some (limitDepth cfg (dropWWW (strSplitCh '.' (normalizedHost host))))

/-- The main per-label phase: fold `processPart` over the labels.  The
result is the `sent` map in insertion order, which equals the emission
sequence of the phase. -/
def mainPhase (parts : List Str) : List Str := parts.foldl processPart []

/-- The env-variant block emitted for one already-sent part: skipped unless
the part is purely alphabetic and ends in no configured env suffix; for
each env word not contained in the part, four variants are emitted. -/
def envVariants (cfg : Config) (w : Str) : List Str :=
  if onlyAlpha w ∧ ¬ cfg.AppendEnvList.any (fun e => strHasSuf w e) then
    cfg.AppendEnvList.flatMap (fun e =>
      if ¬ strContains w e then
        [w ++ e, w ++ '-' :: e, w ++ '_' :: e, w ++ '/' :: e]
      else [])
  else []

/-- The env-appending phase: iterate the sent set (Go map iteration; the
order is a parameter of the model) and emit each part's variants. -/
def envPhase (cfg : Config) (order : List Str) : List Str :=
  order.flatMap (envVariants cfg)

/-- The suffix-stripping block for one sent part: for purely alphabetic
parts ending in a configured env word, emit the trimmed form (first
matching env word only — the Go loop breaks). -/
def removeVariants (cfg : Config) (w : Str) : List Str :=
  if onlyAlpha w then
    match cfg.AppendEnvList.find? (fun e => strHasSuf w e) with
    | some e => [strTrimSuf w e]
    | none => []
  else []

/-- The suffix-stripping phase (Go map iteration; order is a parameter). -/
def removePhase (cfg : Config) (order : List Str) : List Str :=
  order.flatMap (removeVariants cfg)

/-- The bypass phase: each sent part with each bypass string appended
(Go map iteration; order is a parameter). -/
def bypassPhase (order : List Str) : List Str :=
  order.flatMap (fun w => byPassCharacters.map (fun b => w ++ b))

/-- Model of `StreamDomainParts` (final iteration, pkg/domain): the full
emission sequence for one host.  The three `order` parameters model the
unspecified Go map iteration orders of the env-appending, suffix-stripping
and bypass phases; a run of the program corresponds to instantiating each
with some permutation of the main-phase emission list. -/
def StreamDomainParts (host : Str) (cfg : Config)
    (envOrder removeOrder bypassOrder : List Str) : List Str :=
  match hostParts host cfg with
  | none => []
  | some parts =>
    let sent := mainPhase parts
    sent
      ++ (if ¬ cfg.NoEnvAppending then envPhase cfg envOrder else [])
      ++ (if cfg.EnvRemoving then removePhase cfg removeOrder else [])
      ++ (if cfg.AppendByPassesToWords then bypassPhase bypassOrder else [])

/-- The main-phase emission list (the contents of the `sent` map in
insertion order) for a host. -/
def sentList (host : Str) (cfg : Config) : List Str :=
  mainPhase ((hostParts host cfg).getD [])

/-- A canonical run of `StreamDomainParts`: all three map-iteration orders
taken to be the insertion order. -/
def streamRun (host : Str) (cfg : Config) : List Str :=
  StreamDomainParts host cfg (sentList host cfg) (sentList host cfg)
    (sentList host cfg)

/-! ### The per-host word cap

`MaxGeneratedWordsPerHost` is referenced by `config.Config` uses and by
`TestStreamDomainPartsLimitRespected`, but the generator iteration that
enforces it is not among the source files. -/

/-- Modelled from the spec: emission under the per-host cap — a counter of
words emitted so far is kept, and a callback invocation is suppressed once
the counter has reached the limit ("stop emitting once the limit is
reached ... a hard cap applied in emission order"). -/
def capEmit (emitted : Nat) (limit : Nat) : List Str → List Str
  | [] => []
  | w :: ws => if emitted < limit then w :: capEmit (emitted + 1) limit ws else []

/-- Modelled from the spec: `StreamDomainParts` with a configured
`MaxGeneratedWordsPerHost` limit applies the cap to the emission sequence;
a non-positive limit means unconstrained emission (the test uses `0` for
the unconstrained run). -/
def StreamDomainPartsCapped (host : Str) (cfg : Config)
    (envOrder removeOrder bypassOrder : List Str) : List Str :=
  let words := StreamDomainParts host cfg envOrder removeOrder bypassOrder
  if 0 < cfg.MaxGeneratedWordsPerHost then
    capEmit 0 cfg.MaxGeneratedWordsPerHost.toNat words
  else words

/-! ### The duplicate suppressor (`ResponseMap`, final iteration of
pkg/result) -/

/-- UTF-8 encoding of one character (Go strings are byte sequences and
`fnv1aHash` consumes bytes). -/
def charBytes (c : Char) : List Nat :=
  let n := c.toNat
  if n < 0x80 then [n]
  else if n < 0x800 then
    [0xC0 + n / 64, 0x80 + n % 64]
  else if n < 0x10000 then
    [0xE0 + n / 4096, 0x80 + n / 64 % 64, 0x80 + n % 64]
  else
    [0xF0 + n / 262144, 0x80 + n / 4096 % 64, 0x80 + n / 64 % 64,
     0x80 + n % 64]

/-- The bytes of a string. -/
def strBytes (s : Str) : List Nat := s.flatMap charBytes

/-- Model of `fnv1aHash`: 64-bit FNV-1a over the bytes of the string
(`hash ^= byte; hash *= 0x100000001b3`, on `uint64`). -/
def fnv1aHash (data : Str) : Nat :=
  (strBytes data).foldl
    (fun h b => ((h ^^^ b) * 0x100000001b3) % 2 ^ 64)
    0xcbf29ce484222325

/-- Model of `ResponseMap`: 256 shards, each holding the set of 64-bit
hashes inserted into it (`map[uint64]struct{}` — no capacity bound, no
eviction). -/
structure ResponseMap where
  shards : Nat → List Nat

/-- Model of `NewResponseMap`: every shard empty. -/
def NewResponseMap : ResponseMap := ⟨fun _ => []⟩

/-- Model of `getShard`: the shard index is the low byte of the key's
FNV-1a hash. -/
def getShardIdx (key : Str) : Nat := fnv1aHash key &&& 0xFF

/-- The composite duplicate key `host + ":" + strconv.FormatInt(size, 10)`. -/
def dupKey (host : Str) (size : Int) : Str := host ++ ':' :: intDec size

/-- Model of `ResponseMap.isNewResponse`: hash the key `host + ":" + size`,
look the full hash up in the shard selected by the hash's low byte; absent
means new (and the hash is inserted), present means duplicate.  The
double-checked locking of the source collapses to one lookup in this
sequential model. -/
def isNewResponse (rm : ResponseMap) (host : Str) (size : Int) :
    Bool × ResponseMap :=
  if fnv1aHash (dupKey host size) ∈ rm.shards (getShardIdx (dupKey host size)) then
    (false, rm)
  else
    (true,
     ⟨fun i =>
        if i = getShardIdx (dupKey host size) then
          fnv1aHash (dupKey host size) :: rm.shards (getShardIdx (dupKey host size))
        else rm.shards i⟩)

/-- Model of `extractHost`: `url.Parse` (standard library, external to the
repository) is abstracted as an oracle returning the parsed `Host`
component, or `none` for a parse error; on error the raw string is
returned unchanged. -/
def extractHost (parse : Str → Option Str) (urlStr : Str) : Str :=
  match parse urlStr with
  | none => urlStr
  | some host => host

/-! ### The result classifier (`ProcessResult`, final iteration of
pkg/result) -/

/-- Model of `result.Result`; the `Error` field is `none` for a nil error. -/
structure GoResult where
  URL : Str
  Content : Str
  Error : Option Str
  StatusCode : Int
  FileSize : Int
  ContentType : Str

/-- A reported finding (the data printed on a match). -/
structure Finding where
  URL : Str
  UsedMarker : Str
  StatusCode : Int
  FileSize : Int
  ContentType : Str
  Preview : Str
deriving DecidableEq

/-- Model of `containsDisallowedStringInContent` (final iteration): the
content is lowered and each non-empty disallowed entry is lowered and
searched as a substring. -/
def containsDisallowedStringInContent (contentBody : Str)
    (l : List Str) : Bool :=
  if l.isEmpty then false
  else
    let lowerContent := strToLower contentBody
    l.any (fun d =>
      if d = [] then false else strContains lowerContent (strToLower d))

/-- Model of `isDisallowedContentType` (final iteration): each non-empty
disallowed entry is trimmed and searched as a substring of the (already
lowered) content type. -/
def isDisallowedContentType (contentType : Str) (l : List Str) : Bool :=
  if l.isEmpty then false
  else
    l.any (fun d =>
      if d = [] then false else strContains contentType (strTrimSpace d))

/-- The marker loop of `ProcessResult`: the first marker (in list order)
that hits, where a marker without the `regex:` prefix is a literal
substring of the content and a `regex:`-prefixed marker matches via the
`regexp` package (abstracted as the `oracle` argument). -/
def markerScan (oracle : Str → Str → Bool) (markers : List Str)
    (content : Str) : Option Str :=
  markers.find? (fun m =>
    (¬ strHasPre m (ch "regex:") ∧ strContains content m) ∨
    (strHasPre m (ch "regex:") ∧ oracle (strTrimPre m (ch "regex:")) content))

/-- The number of configured rules (`rulesCount`). -/
def rulesCount (cfg : Config) : Nat :=
  (if cfg.HTTPStatusCodes ≠ [] then 1 else 0) +
  (if 0 < cfg.MinContentSize then 1 else 0) +
  (if cfg.ContentTypes ≠ [] then 1 else 0)

/-- The status-code rule: some entry of the comma-separated allow-list
parses (after trimming) and equals the result's status code; entries that
fail to parse are skipped with a log line. -/
def statusRuleHit (cfg : Config) (status : Int) : Bool :=
  cfg.HTTPStatusCodes ≠ [] ∧
    (strSplitCh ',' cfg.HTTPStatusCodes).any (fun s =>
      match atoiParse (strTrimSpace s) with
      | some v => status = v
      | none => false)

/-- The minimum-size rule. -/
def sizeRuleHit (cfg : Config) (fileSize : Int) : Bool :=
  0 < cfg.MinContentSize ∧ cfg.MinContentSize ≤ fileSize

/-- The content-type rule: some entry of the lowered comma-separated
allow-list is a substring of the lowered content type. -/
def ctRuleHit (cfg : Config) (contentType : Str) : Bool :=
  cfg.ContentTypes ≠ [] ∧
    (strSplitCh ',' (strToLower cfg.ContentTypes)).any (fun a =>
      strContains (strToLower contentType) a)

/-- The number of matched rules (`rulesMatched`). -/
def rulesMatchedCount (cfg : Config) (r : GoResult) : Nat :=
  (if statusRuleHit cfg r.StatusCode then 1 else 0) +
  (if sizeRuleHit cfg r.FileSize then 1 else 0) +
  (if ctRuleHit cfg r.ContentType then 1 else 0)

/-- The decision gate `(hasMarkers && !markerFound) || (rulesCount > 0 &&
!rulesPass)`: `true` means the result is skipped. -/
def decisionSkip (cfg : Config) (oracle : Str → Str → Bool)
    (markers : List Str) (r : GoResult) : Bool :=
  let hasMarkers := ¬ markers.isEmpty
  let markerFound := (markerScan oracle markers r.Content).isSome
  let rc := rulesCount cfg
  let rulesPass := rc = 0 ∨ (0 < rc ∧ rulesMatchedCount cfg r = rc)
  (hasMarkers ∧ ¬ markerFound) ∨ (0 < rc ∧ ¬ rulesPass)

/-- The body preview printed with a finding: newlines stripped, first 150
characters. -/
def previewOf (content : Str) : Str :=
  ((content.filter (fun c => c ≠ '\n')).take 150 : Str)

/-- The finding record assembled on a match. -/
def mkFinding (r : GoResult) (used : Option Str) : Finding :=
  { URL := r.URL, UsedMarker := used.getD [], StatusCode := r.StatusCode,
    FileSize := r.FileSize, ContentType := r.ContentType,
    Preview := previewOf r.Content }

/-- Model of `ProcessResult` (final iteration): returns the emitted
finding (if any) and the updated duplicate-suppressor state.  Checks in
source order: nil error, disallowed content type, disallowed content
string, marker scan, rule counting, the combined decision gate, then the
duplicate check keyed by `extractHost` and the file size. -/
def ProcessResult (parse : Str → Option Str) (oracle : Str → Str → Bool)
    (r : GoResult) (cfg : Config) (markers : List Str)
    (rm : ResponseMap) : Option Finding × ResponseMap :=
  if r.Error.isSome then (none, rm)
  else
    let dct := strToLower cfg.DisallowedContentTypes
    if dct ≠ [] ∧
        isDisallowedContentType (strToLower r.ContentType)
          (strSplitCh ',' dct) then (none, rm)
    else
      let dcs := strToLower cfg.DisallowedContentStrings
      if dcs ≠ [] ∧
          containsDisallowedStringInContent r.Content
            (strSplitCh ',' dcs) then (none, rm)
      else if decisionSkip cfg oracle markers r then (none, rm)
      else
        let host := extractHost parse r.URL
        if ¬ cfg.DisableDuplicateCheck then
          let p := isNewResponse rm host r.FileSize
          if ¬ p.1 then (none, p.2)
          else (some (mkFinding r (markerScan oracle markers r.Content)), p.2)
        else (some (mkFinding r (markerScan oracle markers r.Content)), rm)

/-! ### The URL producer (`streamURLsForDomainWithBackpressure`,
final `main.go`)

The channel sends of the producer are modelled by list emission in send
order; the channel itself is modelled in the pipeline section below. -/

/-- Model of `streamURLsForDomainWithBackpressure` for one host: the
sequence of URLs sent on the URL channel, in send order.  Paths starting
with `##` are skipped; the root URL, the base-path URLs and the
generated-word URLs are built exactly as the string-builder writes of the
source.  The three order parameters are those of `StreamDomainParts`. -/
def streamURLsForDomain (domainD : Str) (paths : List Str) (cfg : Config)
    (envOrder removeOrder bypassOrder : List Str) : List Str :=
  let proto := if cfg.ForceHTTPProt then ch "http" else ch "https"
  let d := strTrimSuf
    (strTrimPre (strTrimPre domainD (ch "https://")) (ch "http://"))
    (ch "/")
  paths.flatMap (fun path =>
    if strHasPre path (ch "##") then []
    else
      (if ¬ cfg.SkipRootFolderCheck then
        [proto ++ ch "://" ++ d ++ ch "/" ++ path]
      else []) ++
      cfg.BasePaths.map (fun base =>
        proto ++ ch "://" ++ d ++
          (if ¬ cfg.IgnoreBasePathSlash then ch "/" else []) ++
          base ++ ch "/" ++ path) ++
      (if cfg.DontGeneratePaths then []
      else
        (StreamDomainParts d cfg envOrder removeOrder bypassOrder).flatMap
          (fun word =>
            if cfg.BasePaths.isEmpty then
              [proto ++ ch "://" ++ d ++ ch "/" ++ word ++ ch "/" ++ path]
            else
              cfg.BasePaths.map (fun base =>
                proto ++ ch "://" ++ d ++ ch "/" ++ base ++ ch "/" ++
                  word ++ ch "/" ++ path))))

/-! ### The producer → worker-pool → consumer pipeline (final `main.go`)

The two bounded channels, the fetch step and the consumer are modelled as
a small-step transition system.  A channel send is a transition that is
enabled only while the queue holds fewer elements than its capacity —
a blocked (full-channel) send is simply not enabled, and no transition
discards an element: the source's sends (`urlChan <- b.String()`,
`results <- res`) are unconditional blocking sends with no
`select`/`default` drop branch.  `limiter.Wait(context.Background())`
cannot fail for a background context and a positive burst, so the
error-skip branch of `worker` is dead and not modelled.  Fetching is
modelled as the identity on the URL (the claim is about conservation, not
response contents). -/

/-- A pipeline configuration: URL-channel capacity, result-channel
capacity, and worker count. -/
structure PipeCfg where
  urlCap : Nat
  resCap : Nat
  workers : Nat

/-- A pipeline state: URLs the producer has not yet sent, the URL channel
contents (FIFO), the URLs taken by workers whose results are not yet sent,
the result channel contents (FIFO), and the results the consumer has
received. -/
structure PipeState where
  pending : List Str
  urlChan : List Str
  inFlight : List Str
  resChan : List Str
  received : List Str
deriving DecidableEq

/-- The transitions of the pipeline.  `produce` and `send` are enabled
only below capacity (a blocking send waits, it never drops); `take`
is bounded by the worker count; `consume` always drains. -/
inductive PipeStep (pc : PipeCfg) : PipeState → PipeState → Prop
  | produce (u : Str) (rest : List Str) (s : PipeState)
      (hp : s.pending = u :: rest)
      (hcap : s.urlChan.length < pc.urlCap) :
      PipeStep pc s { s with pending := rest, urlChan := s.urlChan ++ [u] }
  | take (u : Str) (rest : List Str) (s : PipeState)
      (hu : s.urlChan = u :: rest)
      (hw : s.inFlight.length < pc.workers) :
      PipeStep pc s { s with urlChan := rest, inFlight := s.inFlight ++ [u] }
  | send (pre post : List Str) (u : Str) (s : PipeState)
      (hf : s.inFlight = pre ++ u :: post)
      (hcap : s.resChan.length < pc.resCap) :
      PipeStep pc s
        { s with inFlight := pre ++ post, resChan := s.resChan ++ [u] }
  | consume (r : Str) (rest : List Str) (s : PipeState)
      (hr : s.resChan = r :: rest) :
      PipeStep pc s { s with resChan := rest, received := s.received ++ [r] }

/-- The initial pipeline state for a list of URLs the producer will
attempt to emit. -/
def initPipe (urls : List Str) : PipeState :=
  { pending := urls, urlChan := [], inFlight := [], resChan := [],
    received := [] }

/-- Reachability of a pipeline state from the initial state. -/
def PipeReachable (pc : PipeCfg) (urls : List Str) (s : PipeState) : Prop :=
  Relation.ReflTransGen (PipeStep pc) (initPipe urls) s

/-- Folding a sequence of duplicate-suppressor queries over a state. -/
def runQueries (rm : ResponseMap) (qs : List (Str × Int)) : ResponseMap :=
  qs.foldl (fun acc q => (isNewResponse acc q.1 q.2).2) rm

/-! ## Theorems -/

/-! ### Shared lemmas about the duplicate suppressor -/

lemma isNewResponse_shards_mono (rm : ResponseMap) (h : Str) (s : Int)
    (i x : Nat) (hx : x ∈ rm.shards i) :
    x ∈ ((isNewResponse rm h s).2).shards i := by
  unfold isNewResponse
  split
  · exact hx
  · simp only
    split
    · next heq => subst heq; exact List.mem_cons_of_mem _ hx
    · exact hx

lemma runQueries_shards_mono (qs : List (Str × Int)) (rm : ResponseMap)
    (i x : Nat) (hx : x ∈ rm.shards i) :
    x ∈ (runQueries rm qs).shards i := by
  induction qs generalizing rm with
  | nil => exact hx
  | cons q rest ih =>
    exact ih _ (isNewResponse_shards_mono rm q.1 q.2 i x hx)

lemma isNewResponse_inserts (rm : ResponseMap) (h : Str) (s : Int) :
    fnv1aHash (dupKey h s) ∈
      ((isNewResponse rm h s).2).shards (getShardIdx (dupKey h s)) := by
  unfold isNewResponse
  split
  · next hmem => exact hmem
  · simp only [if_pos rfl]
    exact List.mem_cons_self _ _

lemma isNewResponse_false_of_mem (rm : ResponseMap) (h : Str) (s : Int)
    (hmem : fnv1aHash (dupKey h s) ∈
      rm.shards (getShardIdx (dupKey h s))) :
    (isNewResponse rm h s).1 = false := by
  unfold isNewResponse
  split
  · rfl
  · next hn => exact absurd hmem hn

/-- C3 (amended): the suppressor answers `true` on the first query of a
(host, size) pair against a fresh map, and `false` on every subsequent
query of the same pair no matter how many other queries (insertions) are
interleaved — entries are never evicted, because the shards are unbounded
`map[uint64]struct{}` with no capacity and no LRU. -/
theorem isNewResponse_true_once_then_false_forever (h : Str) (s : Int)
    (rm : ResponseMap) (qs : List (Str × Int)) :
    (isNewResponse NewResponseMap h s).1 = true ∧
    (isNewResponse (runQueries (isNewResponse rm h s).2 qs) h s).1 = false := by
  constructor
  · unfold isNewResponse NewResponseMap
    simp
  · exact isNewResponse_false_of_mem _ h s
      (runQueries_shards_mono qs _ _ _ (isNewResponse_inserts rm h s))

/-- The 21 response sizes used in the eviction counterexample; each key
`"h:" + size` lands in shard 101. -/
def c3Sizes : List Int :=
  [0, 15, 145, 303, 624, 686, 888, 963, 981, 1324, 1386, 1445, 1603,
   1849, 1904, 2347, 2448, 2556, 2750, 2989, 3025]

/-- C3 (counterexample): inserting 21 distinct (host, size) keys that all
hash into one shard — far more than any per-shard share of a bounded total
capacity — does not evict the least-recently-used entry: re-querying the
first key still returns `false`, not `true` as the claimed LRU eviction
would require. -/
theorem no_eviction_after_shard_overflow :
    (c3Sizes.map (fun s => getShardIdx (dupKey (ch "h") s))).all
      (fun i => i = 101) = true ∧
    c3Sizes.Nodup ∧
    (isNewResponse (runQueries NewResponseMap
      (c3Sizes.map (fun s => (ch "h", s)))) (ch "h") 0).1 = false := by
  refine ⟨by decide, by decide, ?_⟩
  decide

/-! ### C8: error results -/

/-- C8: a result carrying a non-nil error produces no finding and leaves
the duplicate-suppressor state unchanged — `ProcessResult` returns before
the marker scan, the rule evaluation and the duplicate check. -/
theorem ProcessResult_error_unchanged (parse : Str → Option Str)
    (oracle : Str → Str → Bool) (r : GoResult) (cfg : Config)
    (markers : List Str) (rm : ResponseMap) (he : r.Error.isSome = true) :
    ProcessResult parse oracle r cfg markers rm = (none, rm) := by
  unfold ProcessResult
  simp [he]

/-- The concrete error result of the C8 witness. -/
def c8res : GoResult :=
  { URL := ch "https://host1/env", Content := ch "activeProfiles",
    Error := some (ch "context deadline exceeded"), StatusCode := 0,
    FileSize := 0, ContentType := [] }

/-- Witness for C8 at a concrete errored fetch result. -/
theorem ProcessResult_error_unchanged_witness :
    c8res.Error.isSome = true ∧
    ProcessResult (fun _ => some (ch "host1")) (fun _ _ => false) c8res
      { } [ch "activeProfiles"] NewResponseMap = (none, NewResponseMap) :=
  ⟨rfl, ProcessResult_error_unchanged _ _ c8res { } [ch "activeProfiles"]
    NewResponseMap rfl⟩

/-! ### C2: the per-host emission cap -/

lemma capEmit_eq_take (K : Nat) :
    ∀ (n : Nat) (ws : List Str), capEmit n K ws = ws.take (K - n) := by
  intro n ws
  induction ws generalizing n with
  | nil => simp [capEmit]
  | cons w rest ih =>
    unfold capEmit
    split
    · next hlt =>
      have : K - n = (K - (n + 1)) + 1 := by omega
      rw [this, List.take_succ_cons, ih]
    · next hge =>
      have : K - n = 0 := by omega
      simp [this]

/-- C2: with a configured positive cap `K`, the capped emission is exactly
the first `K` elements of the unconstrained emission for the same host,
config and map-iteration orders, and its length is `min K N` where `N` is
the unconstrained length. -/
theorem StreamDomainPartsCapped_take (host : Str) (cfg : Config)
    (o1 o2 o3 : List Str) (hK : 0 < cfg.MaxGeneratedWordsPerHost) :
    StreamDomainPartsCapped host cfg o1 o2 o3 =
      (StreamDomainParts host cfg o1 o2 o3).take
        cfg.MaxGeneratedWordsPerHost.toNat ∧
    (StreamDomainPartsCapped host cfg o1 o2 o3).length =
      min cfg.MaxGeneratedWordsPerHost.toNat
        (StreamDomainParts host cfg o1 o2 o3).length := by
  have h1 : StreamDomainPartsCapped host cfg o1 o2 o3 =
      (StreamDomainParts host cfg o1 o2 o3).take
        cfg.MaxGeneratedWordsPerHost.toNat := by
    unfold StreamDomainPartsCapped
    rw [if_pos hK, capEmit_eq_take, Nat.sub_zero]
  refine ⟨h1, ?_⟩
  rw [h1, List.length_take]

/-- The limited configuration of `TestStreamDomainPartsLimitRespected`. -/
def c2cfg : Config := { NoEnvAppending := true, MaxGeneratedWordsPerHost := 3 }

/-! ### C1: marker gate versus rule gate -/

/-- Configuration with one configured rule (allowed status code 200) and no
other predicates, for the C1 evaluation. -/
def c1cfg : Config := { HTTPStatusCodes := ch "200" }

/-- A fetch result whose body contains the literal marker but whose status
code fails the configured status rule. -/
def c1res : GoResult :=
  { URL := ch "https://host1/env", Content := ch "spring activeProfiles prod",
    Error := none, StatusCode := 404, FileSize := 1234,
    ContentType := ch "application/json" }

/-- C1 (evaluation at the failing input): the body contains the configured
literal marker `activeProfiles` and the marker loop finds it, exactly one
rule is configured and zero rules match, the result is excluded by no
disallow list and is not a duplicate (fresh suppressor) — yet
`ProcessResult` emits no finding: the final gate is
`(hasMarkers && !markerFound) || (rulesCount > 0 && !rulesPass)`, which
requires the configured rules to pass even when a marker matched (AND, not
OR, between the marker gate and the rule gate). -/
theorem marker_hit_with_failing_rules_is_skipped :
    strContains c1res.Content (ch "activeProfiles") = true ∧
    (markerScan (fun _ _ => false) [ch "activeProfiles"] c1res.Content).isSome
      = true ∧
    rulesCount c1cfg = 1 ∧
    rulesMatchedCount c1cfg c1res = 0 ∧
    (ProcessResult (fun _ => some (ch "host1")) (fun _ _ => false) c1res c1cfg
      [ch "activeProfiles"] NewResponseMap).1 = none := by
  refine ⟨by decide, by decide, by decide, by decide, by decide⟩

/-! ### C10: `extractHost` and the duplicate key -/

/-- C10: `extractHost` returns its input unchanged when `url.Parse` fails
and the parsed `Host` component when it succeeds; and when `ProcessResult`
reaches the duplicate check (no error, not excluded, decision gate passed,
duplicate checking enabled), the suppressor is consulted and updated with
exactly the key `extractHost(result.URL)` and the result's file size. -/
theorem extractHost_dispatch_and_dup_key (parse : Str → Option Str)
    (oracle : Str → Str → Bool) (u hostc : Str) (r : GoResult) (cfg : Config)
    (markers : List Str) (rm : ResponseMap) :
    (parse u = none → extractHost parse u = u) ∧
    (parse u = some hostc → extractHost parse u = hostc) ∧
    (r.Error = none →
     (strToLower cfg.DisallowedContentTypes ≠ [] ∧
       isDisallowedContentType (strToLower r.ContentType)
         (strSplitCh ',' (strToLower cfg.DisallowedContentTypes)) = true →
       False) →
     (strToLower cfg.DisallowedContentStrings ≠ [] ∧
       containsDisallowedStringInContent r.Content
         (strSplitCh ',' (strToLower cfg.DisallowedContentStrings)) = true →
       False) →
     decisionSkip cfg oracle markers r = false →
     cfg.DisableDuplicateCheck = false →
     ProcessResult parse oracle r cfg markers rm =
       (if (isNewResponse rm (extractHost parse r.URL) r.FileSize).1 then
          some (mkFinding r (markerScan oracle markers r.Content))
        else none,
        (isNewResponse rm (extractHost parse r.URL) r.FileSize).2)) := by
  refine ⟨?_, ?_, ?_⟩
  · intro hp; unfold extractHost; rw [hp]
  · intro hp; unfold extractHost; rw [hp]
  · intro herr hct hcs hskip hdup
    unfold ProcessResult
    rw [herr]
    simp only [Option.isSome_none, Bool.false_eq_true, if_false]
    rw [if_neg ?_, if_neg ?_, if_neg ?_]
    · rw [if_pos ?_]
      · split
        · next hnew =>
          simp only [Bool.not_eq_true] at hnew
          simp [hnew]
        · next hnew =>
          simp only [Bool.not_eq_true, Bool.not_eq_false] at hnew
          simp [hnew]
      · simp [hdup]
    · simp [hskip]
    · intro hc; exact hcs ⟨hc.1, hc.2⟩
    · intro hc; exact hct ⟨hc.1, hc.2⟩

/-- The concrete result of the C10 witness: no markers, no rules, fresh
suppressor, so the duplicate check is reached and answers "new". -/
def c10res : GoResult :=
  { URL := ch "https://h/env", Content := ch "body", Error := none,
    StatusCode := 200, FileSize := 5, ContentType := ch "text/plain" }

/-- Witness for C10 at concrete parse oracles and a concrete result. -/
theorem extractHost_dispatch_and_dup_key_witness :
    extractHost (fun _ => none) (ch "http://bad url") = ch "http://bad url" ∧
    extractHost (fun _ => some (ch "h")) (ch "https://h/env") = ch "h" ∧
    ProcessResult (fun _ => some (ch "h")) (fun _ _ => false) c10res { } []
      NewResponseMap =
      (if (isNewResponse NewResponseMap
            (extractHost (fun _ => some (ch "h")) c10res.URL)
            c10res.FileSize).1 then
         some (mkFinding c10res
           (markerScan (fun _ _ => false) [] c10res.Content))
       else none,
       (isNewResponse NewResponseMap
         (extractHost (fun _ => some (ch "h")) c10res.URL)
         c10res.FileSize).2) := by
  refine ⟨?_, ?_, ?_⟩
  · exact (extractHost_dispatch_and_dup_key (fun _ => none) (fun _ _ => false)
      (ch "http://bad url") (ch "h") c10res { } [] NewResponseMap).1 rfl
  · exact (extractHost_dispatch_and_dup_key (fun _ => some (ch "h"))
      (fun _ _ => false) (ch "https://h/env") (ch "h") c10res { } []
      NewResponseMap).2.1 rfl
  · exact (extractHost_dispatch_and_dup_key (fun _ => some (ch "h"))
      (fun _ _ => false) (ch "https://h/env") (ch "h") c10res { } []
      NewResponseMap).2.2 rfl (by decide) (by decide) (by decide) rfl

/-! ### C4: pipeline conservation (blocking sends never drop) -/

/-- All URLs anywhere in the pipeline: not yet produced, in the URL
channel, being fetched, in the result channel, or received. -/
def pipeList (s : PipeState) : List Str :=
  s.pending ++ s.urlChan ++ s.inFlight ++ s.resChan ++ s.received

lemma PipeStep.pipe_perm {pc : PipeCfg} {s t : PipeState}
    (h : PipeStep pc s t) : (pipeList t).Perm (pipeList s) := by
  cases h with
  | produce u rest s hp hcap =>
    refine List.perm_iff_count.2 (fun a => ?_)
    simp only [pipeList, hp, List.count_append, List.count_cons]
    by_cases hau : a = u <;> simp [hau] <;> omega
  | take u rest s hu hw =>
    refine List.perm_iff_count.2 (fun a => ?_)
    simp only [pipeList, hu, List.count_append, List.count_cons]
    by_cases hau : a = u <;> simp [hau] <;> omega
  | send pre post u s hf hcap =>
    refine List.perm_iff_count.2 (fun a => ?_)
    simp only [pipeList, hf, List.count_append, List.count_cons]
    by_cases hau : a = u <;> simp [hau] <;> omega
  | consume r rest s hr =>
    refine List.perm_iff_count.2 (fun a => ?_)
    simp only [pipeList, hr, List.count_append, List.count_cons]
    by_cases hau : a = r <;> simp [hau] <;> omega

lemma pipeReachable_perm {pc : PipeCfg} {urls : List Str} {s : PipeState}
    (h : PipeReachable pc urls s) : (pipeList s).Perm urls := by
  induction h with
  | refl => simp [pipeList, initPipe]
  | tail _ hbc ih => exact (PipeStep.pipe_perm hbc).trans ih

/-- C4: in any reachable pipeline state in which the producer has emitted
everything, both channels are drained and no fetch is in flight, the
consumer has received exactly the URLs the producer attempted to emit (as
a multiset, hence also in count): sends block when a channel is full — no
transition drops an element — so nothing is lost between producer,
workers, and consumer. -/
theorem pipeline_no_drop (pc : PipeCfg) (urls : List Str) (s : PipeState)
    (hreach : PipeReachable pc urls s) (hp : s.pending = [])
    (hu : s.urlChan = []) (hf : s.inFlight = []) (hr : s.resChan = []) :
    s.received.length = urls.length ∧ s.received.Perm urls := by
  have hperm := pipeReachable_perm hreach
  rw [pipeList, hp, hu, hf, hr] at hperm
  simp only [List.nil_append] at hperm
  exact ⟨hperm.length_eq, hperm⟩

/-- The URL list of the C4 witness: two URLs through channels of
capacity 1 (more URLs than the channel holds). -/
def c4urls : List Str := [ch "u1", ch "u2"]

/-- The pipeline configuration of the C4 witness: both channel capacities
1, one worker. -/
def c4pc : PipeCfg := ⟨1, 1, 1⟩

/-- Witness for C4: an explicit interleaving pushing two URLs through
capacity-1 channels reaches the drained terminal state, where the theorem
yields that both URLs were received. -/
theorem pipeline_no_drop_witness :
    (⟨[], [], [], [], [ch "u1", ch "u2"]⟩ : PipeState).received.length =
      c4urls.length ∧
    (⟨[], [], [], [], [ch "u1", ch "u2"]⟩ : PipeState).received.Perm c4urls := by
  refine pipeline_no_drop c4pc c4urls _ ?_ rfl rfl rfl rfl
  refine Relation.ReflTransGen.head
    (PipeStep.produce (ch "u1") [ch "u2"]
      (⟨[ch "u1", ch "u2"], [], [], [], []⟩ : PipeState) rfl (by decide)) ?_
  refine Relation.ReflTransGen.head
    (PipeStep.take (ch "u1") []
      (⟨[ch "u2"], [ch "u1"], [], [], []⟩ : PipeState) rfl (by decide)) ?_
  refine Relation.ReflTransGen.head
    (PipeStep.produce (ch "u2") []
      (⟨[ch "u2"], [], [ch "u1"], [], []⟩ : PipeState) rfl (by decide)) ?_
  refine Relation.ReflTransGen.head
    (PipeStep.send [] [] (ch "u1")
      (⟨[], [ch "u2"], [ch "u1"], [], []⟩ : PipeState) rfl (by decide)) ?_
  refine Relation.ReflTransGen.head
    (PipeStep.take (ch "u2") []
      (⟨[], [ch "u2"], [], [ch "u1"], []⟩ : PipeState) rfl (by decide)) ?_
  refine Relation.ReflTransGen.head
    (PipeStep.consume (ch "u1") []
      (⟨[], [], [ch "u2"], [ch "u1"], []⟩ : PipeState) rfl) ?_
  refine Relation.ReflTransGen.head
    (PipeStep.send [] [] (ch "u2")
      (⟨[], [], [ch "u2"], [], [ch "u1"]⟩ : PipeState) rfl (by decide)) ?_
  refine Relation.ReflTransGen.head
    (PipeStep.consume (ch "u2") []
      (⟨[], [], [], [ch "u2"], [ch "u1"]⟩ : PipeState) rfl) ?_
  exact Relation.ReflTransGen.refl

/-! ### C5: emitted-word shape invariants -/

lemma foldl_preserve_mem {β : Type} {α : Type} (P : β → Prop) (f : β → α → β) :
    ∀ (l : List α), (∀ b a, a ∈ l → P b → P (f b a)) →
      ∀ b, P b → P (l.foldl f b) := by
  intro l
  induction l with
  | nil => intro _ b hb; exact hb
  | cons a t ih =>
    intro hf b hb
    exact ih (fun b' a' ha' hb' => hf b' a' (List.mem_cons_of_mem a ha') hb')
      _ (hf b a (List.mem_cons_self a t) hb)

/-- A property of all sent words is preserved by `sendUnique` when the
newly sent word (if actually appended, hence non-empty) satisfies it. -/
lemma sendUnique_forall {P : Str → Prop} {sent : List Str} {p : Str}
    (hsent : ∀ w ∈ sent, P w) (hp : p ≠ [] → P p) :
    ∀ w ∈ sendUnique sent p, P w := by
  unfold sendUnique
  split
  · next hc =>
    intro w hw
    rcases List.mem_append.1 hw with hw | hw
    · exact hsent w hw
    · rcases List.mem_singleton.1 hw with rfl
      exact hp hc.2
  · exact hsent

lemma processPartSubs_forall {P : Str → Prop} {sent : List Str} {part : Str}
    (hsent : ∀ w ∈ sent, P w)
    (hsub : ∀ sp ∈ strFieldsFunc (fun c => c = '-' || c = '_') part,
      sp ≠ [] → P sp) :
    ∀ w ∈ processPartSubs sent part, P w := by
  unfold processPartSubs
  refine foldl_preserve_mem (fun l => ∀ w ∈ l, P w) _ _ ?_ _ hsent
  intro b a ha hb
  split
  · exact sendUnique_forall hb (hsub a ha)
  · exact hb

lemma processPartEnv_forall {P : Str → Prop} {sent : List Str} {part : Str}
    (hsent : ∀ w ∈ sent, P w)
    (hp : ∀ e, envFind? part = some e → strTrimSuf part e ≠ [] →
      P (strTrimSuf part e)) :
    ∀ w ∈ processPartEnv sent part, P w := by
  unfold processPartEnv
  split
  · next e he => exact sendUnique_forall hsent (hp e he)
  · exact hsent

lemma processPartNum_forall {P : Str → Prop} {sent : List Str} {part : Str}
    (hsent : ∀ w ∈ sent, P w)
    (hp : strTrimSuf part (trailingDigits part) ≠ [] →
      P (strTrimSuf part (trailingDigits part))) :
    ∀ w ∈ processPartNum sent part, P w := by
  unfold processPartNum
  split
  · exact sendUnique_forall hsent hp
  · exact hsent

lemma processPartPre3_forall {P : Str → Prop} {sent : List Str} {part : Str}
    (hsent : ∀ w ∈ sent, P w) (hp : part.take 3 ≠ [] → P (part.take 3)) :
    ∀ w ∈ processPartPre3 sent part, P w := by
  unfold processPartPre3
  split
  · exact sendUnique_forall hsent hp
  · exact hsent

lemma processPartPre4_forall {P : Str → Prop} {sent : List Str} {part : Str}
    (hsent : ∀ w ∈ sent, P w) (hp : part.take 4 ≠ [] → P (part.take 4)) :
    ∀ w ∈ processPartPre4 sent part, P w := by
  unfold processPartPre4
  split
  · exact sendUnique_forall hsent hp
  · exact hsent

lemma processPart_ne_nil {sent : List Str} (part : Str)
    (hsent : ∀ w ∈ sent, w ≠ []) : ∀ w ∈ processPart sent part, w ≠ [] := by
  unfold processPart
  split
  · exact hsent
  · split
    · exact hsent
    · refine processPartPre4_forall
        (processPartPre3_forall
          (processPartNum_forall
            (processPartEnv_forall
              (processPartSubs_forall
                (sendUnique_forall hsent (fun h => h))
                (fun sp _ h => h))
              (fun e _ h => h))
            (fun h => h))
          (fun h => h))
        (fun h => h)

lemma mainPhase_ne_nil (parts : List Str) :
    ∀ w ∈ mainPhase parts, w ≠ [] := by
  unfold mainPhase
  refine foldl_preserve_mem (fun l => ∀ w ∈ l, w ≠ []) _ _ ?_ _ ?_
  · intro b a _ hb; exact processPart_ne_nil a hb
  · intro w hw; cases hw

lemma envPhase_ne_nil (cfg : Config) (order : List Str) :
    ∀ w ∈ envPhase cfg order, w ≠ [] := by
  intro w hw
  rcases List.mem_flatMap.1 hw with ⟨x, _, hvw⟩
  unfold envVariants at hvw
  split at hvw
  · next hcond =>
    rcases List.mem_flatMap.1 hvw with ⟨e, _, hv⟩
    have hx : x ≠ [] := by
      have := hcond.1
      unfold onlyAlpha at this
      intro hxe
      subst hxe
      simp at this
    split at hv
    · simp only [List.mem_cons, List.mem_singleton] at hv
      rcases hv with rfl | rfl | rfl | rfl | hv
      · simp [hx]
      · simp
      · simp
      · simp
      · cases hv
    · cases hv
  · cases hvw

lemma bypassPhase_ne_nil (order : List Str) :
    ∀ w ∈ bypassPhase order, w ≠ [] := by
  intro w hw
  rcases List.mem_flatMap.1 hw with ⟨x, _, hvw⟩
  rcases List.mem_map.1 hvw with ⟨b, hb, rfl⟩
  unfold byPassCharacters at hb
  simp only [List.mem_cons, List.mem_singleton] at hb
  rcases hb with rfl | rfl | hb
  · simp [ch]
  · simp [ch]
  · cases hb

/-- C5 (amended): no word emitted by `StreamDomainParts` is the empty
string, provided env-suffix stripping (`EnvRemoving`) is disabled — the
main phase sends only non-empty words, env variants extend a non-empty
alphabetic word, and bypass variants append a non-empty bypass string.
(The suffix-stripping phase can emit the empty string, and length-1 and
purely-numeric words are emitted; see the counterexample.) -/
theorem stream_no_empty_word (host : Str) (cfg : Config)
    (o1 o2 o3 : List Str) (hER : cfg.EnvRemoving = false) :
    ∀ w ∈ StreamDomainParts host cfg o1 o2 o3, w ≠ [] := by
  unfold StreamDomainParts
  split
  · intro w hw; cases hw
  · next parts _ =>
    intro w hw
    rcases List.mem_append.1 hw with hw | hw
    · rcases List.mem_append.1 hw with hw | hw
      · rcases List.mem_append.1 hw with hw | hw
        · exact mainPhase_ne_nil parts w hw
        · split at hw
          · exact envPhase_ne_nil cfg o1 w hw
          · cases hw
      · rw [hER] at hw
        simp at hw
    · split at hw
      · exact bypassPhase_ne_nil o3 w hw
      · cases hw

/-- The generator configuration of the C5 counterexample (env appending
off so the run is small; suffix stripping and bypasses off). -/
def c5cfg : Config := { NoEnvAppending := true }

/-- C5 (counterexample): the word generator emits the single-character
word `x` for host `xqa.com` (env-suffix trimming of the label `xqa`) and
the purely numeric word `123` for host `123x.com` (3-character prefix of
the label `123x`). -/
theorem single_char_and_numeric_word_emitted :
    ch "x" ∈ StreamDomainParts (ch "xqa.com") c5cfg [] [] [] ∧
    (ch "x").length = 1 ∧
    ch "123" ∈ StreamDomainParts (ch "123x.com") c5cfg [] [] [] ∧
    (ch "123").all isDigitCh = true ∧ atoiOk (ch "123") = true := by
  refine ⟨by decide, by decide, by decide, by decide, by decide⟩

/-- Witness for C5 (amended) at a concrete host and configuration. -/
theorem stream_no_empty_word_witness :
    c5cfg.EnvRemoving = false ∧
    ∀ w ∈ StreamDomainParts (ch "xqa.com") c5cfg [] [] [], w ≠ [] :=
  ⟨rfl, stream_no_empty_word (ch "xqa.com") c5cfg [] [] [] rfl⟩

/-! ### C6: determinism of the generator -/

/-- Host of the C6 counterexample. -/
def c6host : Str := ch "ab-cd.com"

/-- Configuration of the C6 counterexample: env appending on with one env
word. -/
def c6cfg : Config := { AppendEnvList := [ch "qa"] }

/-- C6 (counterexample): two runs on the same (host, config) that differ
only in the env-phase map-iteration order — the insertion order versus its
reverse, both permutations of the sent set, as Go map iteration may
produce — emit different sequences: the generator is not deterministic at
the sequence level. -/
theorem env_map_order_changes_sequence :
    ((sentList c6host c6cfg).reverse).Perm (sentList c6host c6cfg) ∧
    StreamDomainParts c6host c6cfg (sentList c6host c6cfg) [] [] ≠
      StreamDomainParts c6host c6cfg ((sentList c6host c6cfg).reverse) [] [] :=
  ⟨List.reverse_perm _, by decide⟩

/-- C6 (amended): the generator is deterministic up to the unspecified Go
map-iteration orders of its env-appending, suffix-stripping and bypass
phases: any two runs whose phase orders are permutations of each other
emit permutations of each other — the same multiset of words — and the
main-phase prefix is identical. -/
theorem stream_output_perm_invariant (host : Str) (cfg : Config)
    (o1 o2 o3 q1 q2 q3 : List Str) (h1 : o1.Perm q1) (h2 : o2.Perm q2)
    (h3 : o3.Perm q3) :
    (StreamDomainParts host cfg o1 o2 o3).Perm
      (StreamDomainParts host cfg q1 q2 q3) := by
  unfold StreamDomainParts
  split
  · exact List.Perm.refl _
  · refine List.Perm.append (List.Perm.append (List.Perm.append
      (List.Perm.refl _) ?_) ?_) ?_
    · split
      · exact h1.flatMap_right _
      · exact List.Perm.refl _
    · split
      · exact h2.flatMap_right _
      · exact List.Perm.refl _
    · split
      · exact h3.flatMap_right _
      · exact List.Perm.refl _

/-- Witness for C6 (amended): the two concrete runs of the counterexample
are permutations of each other. -/
theorem stream_output_perm_invariant_witness :
    (StreamDomainParts c6host c6cfg (sentList c6host c6cfg) [] []).Perm
      (StreamDomainParts c6host c6cfg
        ((sentList c6host c6cfg).reverse) [] []) :=
  stream_output_perm_invariant c6host c6cfg _ _ _ _ _ _
    (List.reverse_perm _).symm (List.Perm.refl _) (List.Perm.refl _)

/-! ### C7: end-to-end URL generation for the vendorgo scenario -/

lemma mem_envPhase {cfg : Config} {order : List Str} {w x : Str}
    (hw : w ∈ order) (hx : x ∈ envVariants cfg w) : x ∈ envPhase cfg order :=
  List.mem_flatMap.2 ⟨w, hw, hx⟩

/-- Host of the C7 scenario. -/
def c7host : Str := ch "vendorgo.abc.targetdomain.com"

/-- Default-style configuration of the C7 scenario: root-path checking on,
word generation on, env appending on with the default env list (which
contains `qa`), default host depth 6, no base paths. -/
def c7cfg : Config :=
  { HostDepth := 6,
    AppendEnvList := [ch "prod", ch "qa", ch "dev", ch "test", ch "uat",
      ch "stg", ch "stage", ch "sit", ch "api"] }

/-- C7: for any run (any env/strip/bypass map orders consistent with the
sent set), the producer's URL stream for host
`vendorgo.abc.targetdomain.com` with paths `["env"]` and no base paths
contains the root URL, the `vendorgo` word URL, and the `vendorgo-qa`
environment-variant URL. -/
theorem vendorgo_urls_present (o1 o2 o3 : List Str)
    (h1 : o1.Perm (sentList c7host c7cfg)) :
    ch "https://vendorgo.abc.targetdomain.com/env" ∈
      streamURLsForDomain c7host [ch "env"] c7cfg o1 o2 o3 ∧
    ch "https://vendorgo.abc.targetdomain.com/vendorgo/env" ∈
      streamURLsForDomain c7host [ch "env"] c7cfg o1 o2 o3 ∧
    ch "https://vendorgo.abc.targetdomain.com/vendorgo-qa/env" ∈
      streamURLsForDomain c7host [ch "env"] c7cfg o1 o2 o3 := by
  have hwords : StreamDomainParts c7host c7cfg o1 o2 o3 =
      sentList c7host c7cfg ++ envPhase c7cfg o1 := by
    unfold StreamDomainParts
    rw [show hostParts c7host c7cfg =
      some [ch "vendorgo", ch "abc", ch "targetdomain"] from by decide]
    show mainPhase [ch "vendorgo", ch "abc", ch "targetdomain"] ++
        envPhase c7cfg o1 ++ [] ++ [] = _
    rw [List.append_nil, List.append_nil]
    rfl
  have hurls : streamURLsForDomain c7host [ch "env"] c7cfg o1 o2 o3 =
      ch "https://vendorgo.abc.targetdomain.com/env" ::
        (StreamDomainParts c7host c7cfg o1 o2 o3).flatMap
          (fun word =>
            [ch "https://vendorgo.abc.targetdomain.com/" ++ word ++
              ch "/" ++ ch "env"]) := by
    unfold streamURLsForDomain
    simp only [List.flatMap_cons, List.flatMap_nil, List.append_nil]
    rw [show strTrimSuf (strTrimPre (strTrimPre c7host (ch "https://"))
      (ch "http://")) (ch "/") = c7host from by decide]
    rw [if_neg (by decide)]
    rw [show c7cfg.SkipRootFolderCheck = false from rfl,
        show c7cfg.ForceHTTPProt = false from rfl,
        show c7cfg.DontGeneratePaths = false from rfl,
        show c7cfg.BasePaths = [] from rfl]
    simp only [List.map_nil, List.isEmpty_nil, List.append_nil, if_true,
      Bool.false_eq_true, not_false_eq_true, if_pos, if_neg, if_false]
    rfl
  have hv : ch "vendorgo" ∈ sentList c7host c7cfg := by decide
  refine ⟨?_, ?_, ?_⟩
  · rw [hurls]
    exact List.mem_cons_self _ _
  · rw [hurls]
    refine List.mem_cons_of_mem _ (List.mem_flatMap.2 ⟨ch "vendorgo", ?_, ?_⟩)
    · rw [hwords]; exact List.mem_append_left _ hv
    · decide
  · rw [hurls]
    refine List.mem_cons_of_mem _
      (List.mem_flatMap.2 ⟨ch "vendorgo-qa", ?_, ?_⟩)
    · rw [hwords]
      refine List.mem_append_right _
        (mem_envPhase (h1.mem_iff.2 hv) ?_)
      decide
    · decide

/-- Witness for C7 at the canonical (insertion-order) run. -/
theorem vendorgo_urls_present_witness :
    ch "https://vendorgo.abc.targetdomain.com/env" ∈
      streamURLsForDomain c7host [ch "env"] c7cfg
        (sentList c7host c7cfg) [] [] ∧
    ch "https://vendorgo.abc.targetdomain.com/vendorgo/env" ∈
      streamURLsForDomain c7host [ch "env"] c7cfg
        (sentList c7host c7cfg) [] [] ∧
    ch "https://vendorgo.abc.targetdomain.com/vendorgo-qa/env" ∈
      streamURLsForDomain c7host [ch "env"] c7cfg
        (sentList c7host c7cfg) [] [] :=
  vendorgo_urls_present (sentList c7host c7cfg) [] [] (List.Perm.refl _)

/-! ### C9: the lowercase invariant -/

/-- A string contains no ASCII uppercase letter. -/
def noUpper (s : Str) : Prop := ∀ c ∈ s, ¬('A' ≤ c ∧ c ≤ 'Z')

instance (s : Str) : Decidable (noUpper s) := by
  unfold noUpper; infer_instance

lemma lowerChar_not_upper (c : Char) :
    ¬('A' ≤ lowerChar c ∧ lowerChar c ≤ 'Z') := by
  unfold lowerChar
  split
  · next h =>
    have h65 : 65 ≤ c.toNat := h.1
    have h90 : c.toNat ≤ 90 := h.2
    have hv : (c.toNat + 32).isValidChar := Or.inl (by omega)
    have ht : (Char.ofNat (c.toNat + 32)).toNat = c.toNat + 32 := by
      unfold Char.ofNat
      split
      · rfl
      · exact absurd hv (by assumption)
    intro hcon
    have t1 : 65 ≤ (Char.ofNat (c.toNat + 32)).toNat := hcon.1
    have t2 : (Char.ofNat (c.toNat + 32)).toNat ≤ 90 := hcon.2
    omega
  · next h => exact h

lemma noUpper_strToLower (s : Str) : noUpper (strToLower s) := by
  intro c hc
  rcases List.mem_map.1 hc with ⟨a, _, rfl⟩
  exact lowerChar_not_upper a

lemma noUpper_of_subset {s t : Str} (hsub : s ⊆ t) (ht : noUpper t) :
    noUpper s := fun c hc => ht c (hsub hc)

lemma noUpper_append {a b : Str} (ha : noUpper a) (hb : noUpper b) :
    noUpper (a ++ b) := by
  intro c hc
  rcases List.mem_append.1 hc with hc | hc
  · exact ha c hc
  · exact hb c hc

lemma noUpper_cons {c : Char} {s : Str} (hc : ¬('A' ≤ c ∧ c ≤ 'Z'))
    (hs : noUpper s) : noUpper (c :: s) := by
  intro d hd
  rcases List.mem_cons.1 hd with rfl | hd
  · exact hc
  · exact hs d hd

lemma noUpper_of_cons {c : Char} {s : Str} (h : noUpper (c :: s)) :
    ¬('A' ≤ c ∧ c ≤ 'Z') ∧ noUpper s :=
  ⟨h c (List.mem_cons_self c s), fun d hd => h d (List.mem_cons_of_mem c hd)⟩

lemma splitPred_subset (p : Char → Bool) :
    ∀ (s : Str), ∀ piece ∈ splitPred p s, piece ⊆ s := by
  intro s
  induction s with
  | nil =>
    intro piece hp
    unfold splitPred at hp
    rcases List.mem_singleton.1 hp with rfl
    intro d hd
    cases hd
  | cons c rest ih =>
    intro piece hp
    unfold splitPred at hp
    split at hp
    · rcases List.mem_cons.1 hp with rfl | hp
      · intro d hd; cases hd
      · intro d hd
        exact List.mem_cons_of_mem c (ih piece hp hd)
    · cases hq : splitPred p rest with
      | nil =>
        rw [hq] at hp
        rcases List.mem_singleton.1 hp with rfl
        intro d hd
        rcases List.mem_singleton.1 hd with rfl
        exact List.mem_cons_self d rest
      | cons q more =>
        rw [hq] at hp
        rcases List.mem_cons.1 hp with rfl | hp
        · intro d hd
          rcases List.mem_cons.1 hd with rfl | hd
          · exact List.mem_cons_self d rest
          · refine List.mem_cons_of_mem c (ih q ?_ hd)
            rw [hq]
            exact List.mem_cons_self q more
        · intro d hd
          refine List.mem_cons_of_mem c (ih piece ?_ hd)
          rw [hq]
          exact List.mem_cons_of_mem q hp

lemma strFieldsFunc_subset (p : Char → Bool) (s : Str) :
    ∀ piece ∈ strFieldsFunc p s, piece ⊆ s := by
  intro piece hp
  exact splitPred_subset p s piece (List.mem_of_mem_filter hp)

lemma strJoin_noUpper {sep : Str} (hsep : noUpper sep) :
    ∀ (l : List Str), (∀ piece ∈ l, noUpper piece) →
      noUpper (strJoin sep l) := by
  intro l
  induction l with
  | nil =>
    intro _
    simp only [strJoin, List.intercalate]
    intro c hc
    simp at hc
  | cons x t ih =>
    intro hl
    cases t with
    | nil =>
      have : strJoin sep [x] = x := by
        simp [strJoin, List.intercalate, List.intersperse]
      rw [this]
      exact hl x (List.mem_singleton.2 rfl)
    | cons y t' =>
      have : strJoin sep (x :: y :: t') =
          x ++ sep ++ strJoin sep (y :: t') := by
        simp [strJoin, List.intercalate, List.intersperse]
      rw [this]
      exact noUpper_append
        (noUpper_append (hl x (List.mem_cons_self x _)) hsep)
        (ih (fun piece hp => hl piece (List.mem_cons_of_mem x hp)))

lemma removeTLD_noUpper (host : Str) : noUpper (removeTLD host) := by
  unfold removeTLD
  split
  · next i _ =>
    refine strJoin_noUpper (by decide) _ ?_
    intro piece hp
    exact noUpper_of_subset
      (splitPred_subset _ _ piece (List.take_subset i _ hp))
      (noUpper_strToLower host)
  · exact noUpper_strToLower host

lemma regionReplaceAux_subset : ∀ (fuel : Nat) (s : Str),
    regionReplaceAux fuel s ⊆ s := by
  intro fuel
  induction fuel with
  | zero => intro s; cases s <;> exact List.Subset.refl _
  | succ fuel ih =>
    intro s
    cases s with
    | nil => intro d hd; exact hd
    | cons c t =>
      unfold regionReplaceAux
      split
      · next alt _ =>
        intro d hd
        exact List.mem_cons_of_mem c (List.drop_subset _ t (ih _ hd))
      · intro d hd
        rcases List.mem_cons.1 hd with rfl | hd
        · exact List.mem_cons_self d t
        · exact List.mem_cons_of_mem c (ih t hd)

lemma ipPartReplaceAux_subset : ∀ (fuel : Nat) (s : Str),
    ipPartReplaceAux fuel s ⊆ s := by
  intro fuel
  induction fuel with
  | zero => intro s; cases s <;> exact List.Subset.refl _
  | succ fuel ih =>
    intro s
    cases s with
    | nil => intro d hd; exact hd
    | cons c t =>
      unfold ipPartReplaceAux
      split
      · intro d hd
        exact List.mem_cons_of_mem c (List.drop_subset _ t (ih _ hd))
      · intro d hd
        rcases List.mem_cons.1 hd with rfl | hd
        · exact List.mem_cons_self d t
        · exact List.mem_cons_of_mem c (ih t hd)

lemma strReplaceAllAux_noUpper {pat repl : Str} (hrepl : noUpper repl) :
    ∀ (fuel : Nat) (s : Str), noUpper s →
      noUpper (strReplaceAllAux pat repl fuel s) := by
  intro fuel
  induction fuel with
  | zero => intro s hs; cases s <;> exact hs
  | succ fuel ih =>
    intro s hs
    cases s with
    | nil => exact hs
    | cons c t =>
      unfold strReplaceAllAux
      have hct := noUpper_of_cons hs
      split
      · refine noUpper_append hrepl (ih _ ?_)
        exact noUpper_of_subset (List.drop_subset _ t) hct.2
      · exact noUpper_cons hct.1 (ih t hct.2)

lemma md5Replace_subset (s : Str) : md5Replace s ⊆ s := by
  unfold md5Replace
  split
  · intro d hd; cases hd
  · exact List.Subset.refl s

lemma normalizedHost_noUpper (host : Str) : noUpper (normalizedHost host) := by
  unfold normalizedHost
  refine strReplaceAllAux_noUpper (by decide) _ _ ?_
  refine strReplaceAllAux_noUpper (by decide) _ _ ?_
  refine strReplaceAllAux_noUpper (by decide) _ _ ?_
  exact noUpper_of_subset (regionReplaceAux_subset _ _) (removeTLD_noUpper _)

lemma dropWWW_mem {parts : List Str} {part : Str}
    (h : part ∈ dropWWW parts) : part ∈ parts := by
  unfold dropWWW at h
  split at h
  · split at h
    · exact List.mem_cons_of_mem _ h
    · exact h
  · exact h

lemma limitDepth_mem {cfg : Config} {parts : List Str} {part : Str}
    (h : part ∈ limitDepth cfg parts) : part ∈ parts := by
  unfold limitDepth at h
  split at h
  · exact List.take_subset _ _ h
  · exact h

lemma hostParts_noUpper {host : Str} {cfg : Config} {parts : List Str}
    (h : hostParts host cfg = some parts) :
    ∀ part ∈ parts, noUpper part := by
  unfold hostParts at h
  split at h
  · cases h
  · rcases Option.some.inj h with rfl
    intro part hp
    have h1 := dropWWW_mem (limitDepth_mem hp)
    exact noUpper_of_subset
      (splitPred_subset _ _ part h1)
      (normalizedHost_noUpper host)

lemma onlyAlpha_noUpper {w : Str} (h : onlyAlpha w = true) : noUpper w := by
  intro c hc
  unfold onlyAlpha at h
  have hall := List.all_eq_true.1 (Bool.and_elim_right h) c hc
  unfold isLowerAlphaCh at hall
  have hlow : 'a' ≤ c ∧ c ≤ 'z' := by simpa using hall
  have h97 : 97 ≤ c.toNat := hlow.1
  intro hup
  have h90 : c.toNat ≤ 90 := hup.2
  omega

lemma processPart_noUpper {sent : List Str} {part : Str}
    (hsent : ∀ w ∈ sent, noUpper w) (hpart : noUpper part) :
    ∀ w ∈ processPart sent part, noUpper w := by
  unfold processPart
  split
  · exact hsent
  · split
    · exact hsent
    · refine processPartPre4_forall
        (processPartPre3_forall
          (processPartNum_forall
            (processPartEnv_forall
              (processPartSubs_forall
                (sendUnique_forall hsent (fun _ => hpart))
                (fun sp hsp _ => noUpper_of_subset
                  (strFieldsFunc_subset _ part sp hsp) hpart))
              (fun e _ _ => by
                unfold strTrimSuf
                split
                · exact noUpper_of_subset (List.take_subset _ _) hpart
                · exact hpart))
            (fun _ => by
              unfold strTrimSuf
              split
              · exact noUpper_of_subset (List.take_subset _ _) hpart
              · exact hpart))
          (fun _ => noUpper_of_subset (List.take_subset _ _) hpart))
        (fun _ => noUpper_of_subset (List.take_subset _ _) hpart)

lemma mainPhase_noUpper {parts : List Str}
    (hparts : ∀ p ∈ parts, noUpper p) :
    ∀ w ∈ mainPhase parts, noUpper w := by
  unfold mainPhase
  refine foldl_preserve_mem (fun l => ∀ w ∈ l, noUpper w) _ _ ?_ _ ?_
  · intro b a ha hb
    exact processPart_noUpper hb (hparts a ha)
  · intro w hw; cases hw

lemma sentList_noUpper (host : Str) (cfg : Config) :
    ∀ w ∈ sentList host cfg, noUpper w := by
  unfold sentList
  cases hhp : hostParts host cfg with
  | none =>
    simp only [Option.getD_none]
    intro w hw; cases hw
  | some parts =>
    simp only [Option.getD_some]
    exact mainPhase_noUpper (hostParts_noUpper hhp)

lemma envVariants_noUpper {cfg : Config}
    (henv : ∀ e ∈ cfg.AppendEnvList, noUpper e) {w x : Str}
    (hx : x ∈ envVariants cfg w) : noUpper x := by
  unfold envVariants at hx
  split at hx
  · next hg =>
    have hw : noUpper w := onlyAlpha_noUpper hg.1
    rcases List.mem_flatMap.1 hx with ⟨e, he, hv⟩
    have he' : noUpper e := henv e he
    split at hv
    · simp only [List.mem_cons, List.mem_singleton] at hv
      rcases hv with rfl | rfl | rfl | rfl | hv
      · exact noUpper_append hw he'
      · exact noUpper_append hw (noUpper_cons (by decide) he')
      · exact noUpper_append hw (noUpper_cons (by decide) he')
      · exact noUpper_append hw (noUpper_cons (by decide) he')
      · cases hv
    · cases hv
  · cases hx

lemma removeVariants_noUpper {cfg : Config} {w x : Str}
    (hx : x ∈ removeVariants cfg w) : noUpper x := by
  unfold removeVariants at hx
  split at hx
  · next hg =>
    have hw : noUpper w := onlyAlpha_noUpper hg
    split at hx
    · rcases List.mem_singleton.1 hx with rfl
      unfold strTrimSuf
      split
      · exact noUpper_of_subset (List.take_subset _ _) hw
      · exact hw
    · cases hx
  · cases hx

/-- C9: provided every configured env-suffix entry is free of uppercase
letters, every word emitted by the generator contains no uppercase letter,
even for hosts written with uppercase letters — `removeTLD` lower-cases
the entire hostname before decomposition, and every later variant is built
from the lowered labels, the (lowercase-guarded) alphabetic words, the env
entries and lowercase separator characters.  The bypass phase iterates the
sent set, so its order parameter is constrained to a permutation of it. -/
theorem stream_words_no_uppercase (host : Str) (cfg : Config)
    (o1 o2 o3 : List Str) (h3 : o3.Perm (sentList host cfg))
    (henv : ∀ e ∈ cfg.AppendEnvList, noUpper e) :
    ∀ w ∈ StreamDomainParts host cfg o1 o2 o3, noUpper w := by
  unfold StreamDomainParts
  cases hhp : hostParts host cfg with
  | none => intro w hw; cases hw
  | some parts =>
    have hsent : ∀ w ∈ mainPhase parts, noUpper w :=
      mainPhase_noUpper (hostParts_noUpper hhp)
    have hsentList : ∀ w ∈ o3, noUpper w := by
      intro w hw
      have : w ∈ sentList host cfg := h3.mem_iff.1 hw
      exact sentList_noUpper host cfg w this
    intro w hw
    rcases List.mem_append.1 hw with hw | hw
    · rcases List.mem_append.1 hw with hw | hw
      · rcases List.mem_append.1 hw with hw | hw
        · exact hsent w hw
        · split at hw
          · rcases List.mem_flatMap.1 hw with ⟨x, _, hvw⟩
            exact envVariants_noUpper henv hvw
          · cases hw
      · split at hw
        · rcases List.mem_flatMap.1 hw with ⟨x, _, hvw⟩
          exact removeVariants_noUpper hvw
        · cases hw
    · split at hw
      · rcases List.mem_flatMap.1 hw with ⟨x, hxo, hvw⟩
        rcases List.mem_map.1 hvw with ⟨b, hb, rfl⟩
        refine noUpper_append (hsentList x hxo) ?_
        unfold byPassCharacters at hb
        simp only [List.mem_cons, List.mem_singleton] at hb
        rcases hb with rfl | rfl | hb
        · decide
        · decide
        · cases hb
      · cases hw

/-- Configuration of the C9 witness. -/
def c9cfg : Config :=
  { AppendEnvList := [ch "qa"], AppendByPassesToWords := true }

/-- Witness for C9 on a mixed-case host. -/
theorem stream_words_no_uppercase_witness :
    (∀ e ∈ c9cfg.AppendEnvList, noUpper e) ∧
    ∀ w ∈ StreamDomainParts (ch "VendorGO.Example.COM") c9cfg
      (sentList (ch "VendorGO.Example.COM") c9cfg)
      (sentList (ch "VendorGO.Example.COM") c9cfg)
      (sentList (ch "VendorGO.Example.COM") c9cfg), noUpper w :=
  ⟨by decide,
   stream_words_no_uppercase (ch "VendorGO.Example.COM") c9cfg _ _ _
     (List.Perm.refl _) (by decide)⟩

/-- Witness for C2 on the test's host with limit 3. -/
theorem StreamDomainPartsCapped_take_witness :
    StreamDomainPartsCapped (ch "admin-api-portal.stage.internal.example.com")
      c2cfg [] [] [] =
      (StreamDomainParts (ch "admin-api-portal.stage.internal.example.com")
        c2cfg [] [] []).take c2cfg.MaxGeneratedWordsPerHost.toNat ∧
    (StreamDomainPartsCapped (ch "admin-api-portal.stage.internal.example.com")
      c2cfg [] [] []).length =
      min c2cfg.MaxGeneratedWordsPerHost.toNat
        (StreamDomainParts (ch "admin-api-portal.stage.internal.example.com")
          c2cfg [] [] []).length :=
  StreamDomainPartsCapped_take _ c2cfg [] [] [] (by decide)

end DFS
